import Mathlib

/-!
Verification of the room-signaling subsystem of the video-chat app:
the server socket handlers (`join-room`, `signal`, `disconnect` in
`3-video-chat`'s socket module) and the client orchestrator
(`public/client.js`).  Server-side room state, the socket.io room
membership and the per-socket `roomId` field are embedded as association
lists over `String` keys, mirroring the JavaScript objects; the client's
`peers` table, the two remote video slots and the local stream are
embedded likewise.  Event emission is made explicit as a list of emitted
events per handler invocation.
-/

namespace VideoChat

/-! ### Association lists with string keys (JavaScript object semantics) -/

/-- Lookup of a key in an association list (first match), modelling
`obj[key]` returning `undefined` (`none`) when the key is absent. -/
def alookup {α : Type} : List (String × α) → String → Option α
  | [], _ => none
  | (k, v) :: rest, key => if k = key then some v else alookup rest key

/-- Assignment `obj[key] = v`: replace the (unique) binding if present,
otherwise append a new binding. -/
def aset {α : Type} : List (String × α) → String → α → List (String × α)
  | [], key, v => [(key, v)]
  | (k, w) :: rest, key, v =>
    if k = key then (key, v) :: rest else (k, w) :: aset rest key v

/-- Deletion `delete obj[key]`. -/
def adel {α : Type} : List (String × α) → String → List (String × α)
  | [], _ => []
  | (k, v) :: rest, key =>
    if k = key then adel rest key else (k, v) :: adel rest key

theorem alookup_aset_self {α : Type} (l : List (String × α)) (k : String) (v : α) :
    alookup (aset l k v) k = some v := by
  induction l with
  | nil => simp [aset, alookup]
  | cons hd tl ih =>
    obtain ⟨k', v'⟩ := hd
    by_cases h : k' = k <;> simp [aset, alookup, h, ih]

theorem alookup_aset_other {α : Type} (l : List (String × α)) (k : String) (v : α)
    (k' : String) (h : k' ≠ k) : alookup (aset l k v) k' = alookup l k' := by
  induction l with
  | nil => simp [aset, alookup, Ne.symm h]
  | cons hd tl ih =>
    obtain ⟨k₀, v₀⟩ := hd
    by_cases h0 : k₀ = k
    · subst h0
      simp [aset, alookup, Ne.symm h]
    · simp [aset, alookup, h0, ih]

theorem alookup_adel_self {α : Type} (l : List (String × α)) (k : String) :
    alookup (adel l k) k = none := by
  induction l with
  | nil => rfl
  | cons hd tl ih =>
    obtain ⟨k', v'⟩ := hd
    by_cases h : k' = k <;> simp [adel, alookup, h, ih]

theorem alookup_adel_other {α : Type} (l : List (String × α)) (k : String)
    (k' : String) (h : k' ≠ k) : alookup (adel l k) k' = alookup l k' := by
  induction l with
  | nil => rfl
  | cons hd tl ih =>
    obtain ⟨k₀, v₀⟩ := hd
    by_cases h0 : k₀ = k
    · subst h0
      simp [adel, alookup, Ne.symm h, ih]
    · simp [adel, alookup, h0, ih]

theorem aset_lookup_eq {α : Type} (l : List (String × α)) (k : String) (v : α)
    (h : alookup l k = some v) : aset l k v = l := by
  induction l with
  | nil => simp [alookup] at h
  | cons hd tl ih =>
    obtain ⟨k₀, v₀⟩ := hd
    by_cases h0 : k₀ = k
    · subst h0
      simp [alookup] at h
      simp [aset, h]
    · simp [alookup, h0] at h
      simp [aset, h0, ih h]

/-! ### Server-side data model -/

/-- A socket identifier assigned by the channel (`socket.id`). -/
abbrev Sid := String

/-- A room code (`roomId`). -/
abbrev RoomId := String

/-- Events emitted by the server handlers, with their recipients made
explicit.  `roomFullTo` is `socket.emit('room-full')` (the requesting
socket only); `userJoined`, `allUsers`, `roomFullAll` and `userLeft`
carry the recipient sets computed from socket.io room membership. -/
inductive SEvent where
  | roomFullTo (sid : Sid)
  | userJoined (recipients : List Sid) (joiner : Sid)
  | allUsers (recipient : Sid) (users : List Sid)
  | roomFullAll (recipients : List Sid)
  | userLeft (recipients : List Sid) (who : Sid)
  deriving DecidableEq, Repr

/-- Server state: the `rooms` object mapping room id to the ordered list
of member socket ids, the per-socket `socket.roomId` field, and
socket.io's own room membership (`socket.join` / implicit leave on
disconnect). -/
structure ServerState where
  rooms : List (RoomId × List Sid)
  sockRoom : List (Sid × RoomId)
  ioRooms : List (RoomId × List Sid)
  deriving DecidableEq, Repr

def initServer : ServerState := ⟨[], [], []⟩

/-- Members of a socket.io room. -/
def ioMembers (io : List (RoomId × List Sid)) (rid : RoomId) : List Sid :=
  (alookup io rid).getD []

/-- `socket.join(roomId)`: add the socket to the io room (a set). -/
def ioJoin (io : List (RoomId × List Sid)) (rid : RoomId) (sid : Sid) :
    List (RoomId × List Sid) :=
  let ms := ioMembers io rid
  if sid ∈ ms then io else aset io rid (ms ++ [sid])

/-- On disconnect, socket.io removes the socket from every io room. -/
def ioLeaveAll (io : List (RoomId × List Sid)) (sid : Sid) :
    List (RoomId × List Sid) :=
  io.map (fun p => (p.1, p.2.filter (fun i => i != sid)))

/-- The `join-room` handler.  Creates the room object if absent, rejects
with `room-full` (to the joiner only) when the member list already holds
3 sockets, otherwise pushes the joiner, joins the io room, records
`socket.roomId`, notifies the io room of the new user, sends the joiner
the member list minus its own id, and broadcasts `room-full` to the io
room when the list reaches exactly 3. -/
def joinRoom (st : ServerState) (sid : Sid) (rid : RoomId) :
    ServerState × List SEvent :=
  let rooms0 := if (alookup st.rooms rid).isNone then aset st.rooms rid [] else st.rooms
  let clients := (alookup rooms0 rid).getD []
  if 3 ≤ clients.length then
    ({ st with rooms := rooms0 }, [SEvent.roomFullTo sid])
  else
    let clients' := clients ++ [sid]
    let ioRooms' := ioJoin st.ioRooms rid sid
    ({ rooms := aset rooms0 rid clients',
       sockRoom := aset st.sockRoom sid rid,
       ioRooms := ioRooms' },
     [SEvent.userJoined ((ioMembers ioRooms' rid).filter (fun m => m != sid)) sid,
      SEvent.allUsers sid (clients'.filter (fun i => i != sid))]
     ++ (if clients'.length == 3 then [SEvent.roomFullAll (ioMembers ioRooms' rid)] else []))

/-- The `disconnect` handler.  Guarded by `if (roomId && rooms[roomId])`
(a never-set or empty-string `socket.roomId` is falsy); filters the
socket id out of the member list, emits `user-left` to the io room, and
deletes the room when the list becomes empty.  `socket.roomId` itself is
never cleared. -/
def disconnectSock (st : ServerState) (sid : Sid) : ServerState × List SEvent :=
  let ioRooms' := ioLeaveAll st.ioRooms sid
  match alookup st.sockRoom sid with
  | none => ({ st with ioRooms := ioRooms' }, [])
  | some rid =>
    if rid = "" then ({ st with ioRooms := ioRooms' }, [])
    else
      match alookup st.rooms rid with
      | none => ({ st with ioRooms := ioRooms' }, [])
      | some clients =>
        let clients' := clients.filter (fun i => i != sid)
        let rooms1 := aset st.rooms rid clients'
        let rooms2 := if clients'.length == 0 then adel rooms1 rid else rooms1
        ({ rooms := rooms2, sockRoom := st.sockRoom, ioRooms := ioRooms' },
         [SEvent.userLeft ((ioMembers st.ioRooms rid).filter (fun m => m != sid)) sid])

/-- The operations a client can drive against the server. -/
inductive Op where
  | join (sid : Sid) (rid : RoomId)
  | disconnect (sid : Sid)
  deriving DecidableEq, Repr

def stepServer (st : ServerState) : Op → ServerState × List SEvent
  | .join sid rid => joinRoom st sid rid
  | .disconnect sid => disconnectSock st sid

def runServerFrom (st : ServerState) (ops : List Op) : ServerState :=
  ops.foldl (fun s op => (stepServer s op).1) st

def runServer (ops : List Op) : ServerState :=
  runServerFrom initServer ops

/-! ### Signal relay (server `signal` handler) -/

/-- The envelope a client sends with `socket.emit('signal', {to, from, signal})`.
The JavaScript fields `to` and `from` are rendered as `toId` and `fromId`
(both are reserved words in Lean); the opaque payload is kept as a string. -/
structure SignalData where
  toId : Sid
  fromId : Sid
  signal : String
  deriving DecidableEq, Repr

/-- The server `signal` handler: it destructures `{to, from, signal}` from
the received data and emits `{from, signal}` to the socket named `to`.
`senderSid` is the channel-assigned id (`socket.id`) of the socket that sent
the envelope; the handler never consults it.  Result: (recipient, delivered
`from`, delivered payload). -/
def handleSignal (senderSid : Sid) (data : SignalData) : Sid × Sid × String :=
  (data.toId, data.fromId, data.signal)

/-! ### Client-side data model (`public/client.js`) -/

/-- A media stream, identified as in the DOM by its `id` (the client's
`removeRemoteVideo` compares `videoEl.srcObject.id` to a user id). -/
structure MediaStream where
  id : String
  deriving DecidableEq, Repr

/-- One peer connection entry in the client's `peers` table; the flag
records whether `createPeerConnection` installed the `onnegotiationneeded`
offer logic (the `isInitiator` argument). -/
structure PeerLink where
  isInitiator : Bool
  deriving DecidableEq, Repr

/-- Client state: the `peers` object, the two remote video slots
(`remoteVideos[0]`, `remoteVideos[1]`, holding their `srcObject`), the
local stream and the current room id. -/
structure ClientState where
  peers : List (Sid × PeerLink)
  slot1 : Option MediaStream
  slot2 : Option MediaStream
  localStream : Option MediaStream
  roomId : Option RoomId
  deriving DecidableEq, Repr

def initClient : ClientState :=
  { peers := [], slot1 := none, slot2 := none, localStream := none, roomId := none }

/-- `createPeerConnection(userId, isInitiator)`: stores a new connection in
`peers[userId]` (overwriting any existing entry). -/
def createPeerConnection (c : ClientState) (userId : Sid) (isInitiator : Bool) :
    ClientState :=
  { c with peers := aset c.peers userId ⟨isInitiator⟩ }

/-- `addRemoteStream(userId, stream)`: puts the stream into the first free
slot (the `userId` parameter is accepted but unused, as in the source). -/
def addRemoteStream (c : ClientState) (userId : Sid) (s : MediaStream) :
    ClientState :=
  if c.slot1.isNone then { c with slot1 := some s }
  else if c.slot2.isNone then { c with slot2 := some s }
  else c

/-- One slot's update in `removeRemoteVideo`: cleared when it holds a
stream whose id equals the departing user id. -/
def clearIfMatch : Option MediaStream → Sid → Option MediaStream
  | some s, uid => if s.id = uid then none else some s
  | none, _ => none

/-- `removeRemoteVideo(userId)`: clears every slot whose `srcObject.id`
equals `userId`. -/
def removeRemoteVideo (c : ClientState) (userId : Sid) : ClientState :=
  { c with slot1 := clearIfMatch c.slot1 userId,
           slot2 := clearIfMatch c.slot2 userId }

/-- `leaveRoom()`: closes every peer connection and empties the table,
stops and releases the local stream, and clears the room id.  The remote
video slots are not touched by this function in the source. -/
def leaveRoomClient (c : ClientState) : ClientState :=
  { c with peers := [], localStream := none, roomId := none }

/-- Client handler for `room-full`: shows an error message and calls
`leaveRoom()` unconditionally. -/
def handleRoomFull (c : ClientState) : ClientState :=
  leaveRoomClient c

/-- Client handler for `all-users`: creates an initiator connection toward
every listed existing member. -/
def handleAllUsers (users : List Sid) (c : ClientState) : ClientState :=
  users.foldl (fun acc u => createPeerConnection acc u true) c

/-- Client handler for `user-joined`: creates a non-initiator connection
toward the newly joined member. -/
def handleUserJoined (joiner : Sid) (c : ClientState) : ClientState :=
  createPeerConnection c joiner false

/-- Client handler for `user-left`: when a peer entry exists, closes it,
deletes it from the table and clears the matching video slot. -/
def handleUserLeft (who : Sid) (c : ClientState) : ClientState :=
  if (alookup c.peers who).isSome then
    removeRemoteVideo { c with peers := adel c.peers who } who
  else c

/-- The `peer.onconnectionstatechange` callback for the peer stored under
`userId`: when the connection state reads `disconnected`, `failed` or
`closed`, the peer is closed, deleted from the table, and its video slot
cleared; otherwise nothing happens. -/
def handleConnStateChange (c : ClientState) (userId : Sid) (connState : String) :
    ClientState :=
  if connState = "disconnected" ∨ connState = "failed" ∨ connState = "closed" then
    removeRemoteVideo { c with peers := adel c.peers userId } userId
  else c

/-! ### Combined server/client system -/

/-- The whole system: the server plus one client state per socket id. -/
structure World where
  server : ServerState
  clients : Sid → ClientState

def initWorld : World :=
  { server := initServer, clients := fun _ => initClient }

/-- Update one client's state. -/
def updClient (cs : Sid → ClientState) (sid : Sid) (f : ClientState → ClientState) :
    Sid → ClientState :=
  fun x => if x = sid then f (cs x) else cs x

/-- Deliver one server-emitted event to the client handlers of its
recipients. -/
def deliverEv (cs : Sid → ClientState) : SEvent → (Sid → ClientState)
  | .roomFullTo sid => updClient cs sid handleRoomFull
  | .allUsers recip users => updClient cs recip (handleAllUsers users)
  | .userJoined recips joiner =>
    recips.foldl (fun acc m => updClient acc m (handleUserJoined joiner)) cs
  | .roomFullAll recips =>
    recips.foldl (fun acc m => updClient acc m handleRoomFull) cs
  | .userLeft recips who =>
    recips.foldl (fun acc m => updClient acc m (handleUserLeft who)) cs

/-- One system step: run the server handler, then deliver every emitted
event to the recipients' client handlers. -/
def stepWorld (w : World) (op : Op) : World :=
  let r := stepServer w.server op
  { server := r.1, clients := r.2.foldl deliverEv w.clients }

def runWorld (ops : List Op) : World :=
  ops.foldl stepWorld initWorld

/-! ### Derived observations used by the statements -/

/-- Number of times `sid` occurs in the member list of room `r`. -/
def occ (st : ServerState) (sid : Sid) (r : RoomId) : Nat :=
  ((alookup st.rooms r).getD []).count sid

/-- Whether an operation is a `join-room` issued by `sid`. -/
def isJoinBy (op : Op) (sid : Sid) : Bool :=
  match op with
  | .join s _ => s == sid
  | .disconnect _ => false

/-- Number of `join-room` operations issued by `sid` in a trace. -/
def joinCount (ops : List Op) (sid : Sid) : Nat :=
  ops.countP (fun op => isJoinBy op sid)

/-- The payload of the first `all-users` event in an emission list. -/
def allUsersPayload : List SEvent → Option (List Sid)
  | [] => none
  | .allUsers _ users :: _ => some users
  | _ :: rest => allUsersPayload rest

/-- The spec's single-membership property for one participant: its id is a
member of at most one room's list, and occurs at most once in that list. -/
def singleMembership (st : ServerState) (sid : Sid) : Prop :=
  st.rooms.countP (fun p => p.2.contains sid) ≤ 1 ∧
  ∀ p ∈ st.rooms, p.2.count sid ≤ 1

instance (st : ServerState) (sid : Sid) : Decidable (singleMembership st sid) := by
  unfold singleMembership
  infer_instance

/-! ### Helper lemmas about the join handler's room-creation step -/

theorem alookup_create_getD (rooms : List (RoomId × List Sid)) (rid : RoomId) :
    (alookup (if (alookup rooms rid).isNone then aset rooms rid [] else rooms) rid).getD []
      = (alookup rooms rid).getD [] := by
  cases h : alookup rooms rid with
  | none => simp [h, alookup_aset_self]
  | some v => simp [h]

theorem alookup_create_other (rooms : List (RoomId × List Sid)) (rid r : RoomId)
    (h : r ≠ rid) :
    alookup (if (alookup rooms rid).isNone then aset rooms rid [] else rooms) r
      = alookup rooms r := by
  cases h0 : alookup rooms rid with
  | none => simp [h0, alookup_aset_other _ _ _ _ h]
  | some v => simp [h0]

/-! ### Capacity invariant -/

/-- Every room's member list holds at most 3 socket ids. -/
def boundedRooms (st : ServerState) : Prop :=
  ∀ rid, ((alookup st.rooms rid).getD []).length ≤ 3

theorem joinRoom_bounded (st : ServerState) (sid : Sid) (rid : RoomId)
    (h : boundedRooms st) : boundedRooms (joinRoom st sid rid).1 := by
  intro r
  simp only [joinRoom]
  cases h0 : alookup st.rooms rid with
  | none =>
    simp [h0, alookup_aset_self]
    by_cases hr : r = rid
    · subst hr
      simp [alookup_aset_self]
    · have := h r
      simp only [alookup_aset_other _ _ _ _ hr]
      simpa [h0] using this
  | some clients =>
    simp [h0]
    split
    · simpa [h0] using h r
    · rename_i hlen
      by_cases hr : r = rid
      · subst hr
        simp [alookup_aset_self]
        omega
      · have := h r
        simpa [alookup_aset_other _ _ _ _ hr] using this

theorem disconnectSock_bounded (st : ServerState) (sid : Sid)
    (h : boundedRooms st) : boundedRooms (disconnectSock st sid).1 := by
  intro r
  simp only [disconnectSock]
  cases hs : alookup st.sockRoom sid with
  | none => exact h r
  | some rid =>
    by_cases he : rid = ""
    · simp only [he, if_pos rfl]
      exact h r
    · simp only [if_neg he]
      cases hm : alookup st.rooms rid with
      | none => exact h r
      | some clients =>
        simp only []
        split
        · by_cases hr : r = rid
          · subst hr
            simp [alookup_adel_self]
          · simp only [alookup_adel_other _ _ _ hr, alookup_aset_other _ _ _ _ hr]
            exact h r
        · by_cases hr : r = rid
          · subst hr
            simp only [alookup_aset_self, Option.getD_some]
            have h1 : (clients.filter (fun i => i != sid)).length ≤ clients.length :=
              List.length_filter_le _ _
            have h2 := h r
            rw [hm] at h2
            simp only [Option.getD_some] at h2
            omega
          · simp only [alookup_aset_other _ _ _ _ hr]
            exact h r

theorem runServerFrom_bounded (ops : List Op) (st : ServerState)
    (h : boundedRooms st) : boundedRooms (runServerFrom st ops) := by
  induction ops generalizing st with
  | nil => exact h
  | cons op rest ih =>
    have hstep : boundedRooms (stepServer st op).1 := by
      cases op with
      | join sid rid => exact joinRoom_bounded st sid rid h
      | disconnect sid => exact disconnectSock_bounded st sid h
    exact ih _ hstep

/-- Claim C1: for every sequence of join and leave/disconnect operations,
no room's membership list ever exceeds the capacity of 3: the join
handler appends only when the count is strictly below 3, and the
disconnect handler only filters the list. -/
theorem membership_capacity_bound (ops : List Op) (rid : RoomId) :
    ((alookup (runServer ops).rooms rid).getD []).length ≤ 3 :=
  runServerFrom_bounded ops initServer (fun _ => by simp [initServer, alookup]) rid

/-- Claim C3: a join attempt on a room whose membership equals the capacity
of 3 returns the state unchanged (the ordered member list and everything
else) and emits `room-full` to the joiner only. -/
theorem join_full_room_rejected (st : ServerState) (sid : Sid) (rid : RoomId)
    (ms : List Sid) (hms : alookup st.rooms rid = some ms) (hlen : ms.length = 3) :
    joinRoom st sid rid = (st, [SEvent.roomFullTo sid]) := by
  simp [joinRoom, hms, hlen]

/-- Witness for claim C3: the fourth join into a room holding three members
is rejected without touching the state. -/
theorem join_full_room_rejected_witness :
    joinRoom (runServer [Op.join "a" "r", Op.join "b" "r", Op.join "c" "r"]) "d" "r"
      = (runServer [Op.join "a" "r", Op.join "b" "r", Op.join "c" "r"],
         [SEvent.roomFullTo "d"]) :=
  join_full_room_rejected _ "d" "r" ["a", "b", "c"] rfl rfl

/-- Counterexample for claim C6: the `signal` handler relays the `from`
field found in the envelope, so a sender with channel id `sockA` writing
`spoofed` into `from` gets `spoofed` delivered, not `sockA`. -/
theorem relay_spoof_cex :
    (handleSignal "sockA" { toId := "sockB", fromId := "spoofed", signal := "offer" }).2.1
        = "spoofed"
      ∧ "spoofed" ≠ "sockA" := by
  exact ⟨rfl, by decide⟩

/-- Claim C6 amended: the delivered `from` identifier is exactly the `from`
field of the envelope as sent, independent of which socket sent it; the
server neither overwrites nor validates it, so a sender can spoof `from`. -/
theorem relay_echoes_sender_field (s1 s2 : Sid) (data : SignalData) :
    handleSignal s1 data = handleSignal s2 data
      ∧ (handleSignal s1 data).2.1 = data.fromId :=
  ⟨rfl, rfl⟩

/-- Counterexample for claim C5: a peer whose connection object reports the
transient `disconnected` state is destroyed (removed from the peer table)
by the `onconnectionstatechange` handler. -/
theorem teardown_on_disconnected_cex :
    alookup (⟨[("u", ⟨true⟩)], none, none, none, none⟩ : ClientState).peers "u"
        = some { isInitiator := true }
      ∧ alookup (handleConnStateChange ⟨[("u", ⟨true⟩)], none, none, none, none⟩
          "u" "disconnected").peers "u" = none := by
  exact ⟨rfl, rfl⟩

/-- Claim C5 amended: a PeerLink is destroyed by the connection-state
handler exactly when the reported state is `disconnected`, `failed` or
`closed` — the transient `disconnected` state is torn down just like the
terminal ones. -/
theorem teardown_states_characterization (c : ClientState) (u : Sid) (s : String)
    (h : (alookup c.peers u).isSome) :
    alookup (handleConnStateChange c u s).peers u = none
      ↔ (s = "disconnected" ∨ s = "failed" ∨ s = "closed") := by
  unfold handleConnStateChange
  split
  · rename_i hcond
    simp [removeRemoteVideo, alookup_adel_self, hcond]
  · rename_i hcond
    have h' : alookup c.peers u ≠ none := Option.isSome_iff_ne_none.mp h
    simp [hcond, h']

/-- Witness for claim C5 amended: an existing peer in state `failed` is
removed. -/
theorem teardown_states_characterization_witness :
    alookup (handleConnStateChange ⟨[("v", ⟨false⟩)], none, none, none, none⟩
        "v" "failed").peers "v" = none :=
  (teardown_states_characterization ⟨[("v", ⟨false⟩)], none, none, none, none⟩
      "v" "failed" rfl).mpr (Or.inr (Or.inl rfl))

/-- Claim C7: on a `user-left` notification for a participant with an
existing PeerLink, the link is removed from the peer table and every
display slot holding that participant's stream is cleared; and clearing
slots for a participant with no bound slot is a no-op. -/
theorem user_left_teardown (c : ClientState) (b : Sid) :
    ((alookup c.peers b).isSome →
        alookup (handleUserLeft b c).peers b = none
      ∧ (∀ s, c.slot1 = some s → s.id = b → (handleUserLeft b c).slot1 = none)
      ∧ (∀ s, c.slot2 = some s → s.id = b → (handleUserLeft b c).slot2 = none))
    ∧ ((∀ s, c.slot1 = some s → s.id ≠ b) → (∀ s, c.slot2 = some s → s.id ≠ b) →
        removeRemoteVideo c b = c) := by
  constructor
  · intro hsome
    refine ⟨?_, ?_, ?_⟩
    · simp [handleUserLeft, hsome, removeRemoteVideo, alookup_adel_self]
    · intro s h1 h2
      simp [handleUserLeft, hsome, removeRemoteVideo, clearIfMatch, h1, h2]
    · intro s h1 h2
      simp [handleUserLeft, hsome, removeRemoteVideo, clearIfMatch, h1, h2]
  · intro h1 h2
    have e1 : clearIfMatch c.slot1 b = c.slot1 := by
      cases hs : c.slot1 with
      | none => rfl
      | some s => simp [clearIfMatch, h1 s hs]
    have e2 : clearIfMatch c.slot2 b = c.slot2 := by
      cases hs : c.slot2 with
      | none => rfl
      | some s => simp [clearIfMatch, h2 s hs]
    simp [removeRemoteVideo, e1, e2]

/-- Witness for claim C7: a client holding a PeerLink and a bound slot for
`b` loses both on `user-left`, and slot clearing for an unbound
participant leaves the state untouched. -/
theorem user_left_teardown_witness :
    alookup (handleUserLeft "b"
        ⟨[("b", ⟨true⟩)], some ⟨"b"⟩, none, none, none⟩).peers "b" = none
    ∧ (handleUserLeft "b"
        ⟨[("b", ⟨true⟩)], some ⟨"b"⟩, none, none, none⟩).slot1 = none
    ∧ removeRemoteVideo ⟨[], some ⟨"x"⟩, none, none, none⟩ "b"
      = ⟨[], some ⟨"x"⟩, none, none, none⟩ := by
  refine ⟨?_, ?_, ?_⟩
  · exact ((user_left_teardown ⟨[("b", ⟨true⟩)], some ⟨"b"⟩, none, none, none⟩ "b").1
      rfl).1
  · exact ((user_left_teardown ⟨[("b", ⟨true⟩)], some ⟨"b"⟩, none, none, none⟩ "b").1
      rfl).2.1 ⟨"b"⟩ rfl rfl
  · exact (user_left_teardown ⟨[], some ⟨"x"⟩, none, none, none⟩ "b").2
      (fun s hs => by cases hs; decide) (fun s hs => by cases hs)

/-- Appending an id to a list it does not occur in and filtering it out
again returns the original list (the `clients.filter(id => id !== socket.id)`
computation after `clients.push(socket.id)`). -/
theorem filter_ne_append_self (ms : List Sid) (sid : Sid) (hs : sid ∉ ms) :
    (ms ++ [sid]).filter (fun m => m != sid) = ms := by
  rw [List.filter_append]
  have h1 : ms.filter (fun m => m != sid) = ms :=
    List.filter_eq_self.mpr (fun a ha => by
      simp only [bne_iff_ne, ne_eq]
      exact fun hEq => hs (hEq ▸ ha))
  simp [h1]

/-- Claim C10: when the third participant is admitted, the server notifies
the prior members, sends the joiner the roster, and then broadcasts
`room-full` to the whole io room — all three current members, the admitted
joiner included; and the client's `room-full` handler unconditionally runs
the full leave routine (peer table emptied, local stream stopped and
released, room id cleared), whether or not that client is an admitted
member. -/
theorem third_join_room_full_broadcast (st : ServerState) (sid : Sid) (rid : RoomId)
    (ms : List Sid) (hms : alookup st.rooms rid = some ms) (hlen : ms.length = 2)
    (hio : ioMembers st.ioRooms rid = ms) (hs : sid ∉ ms) :
    (joinRoom st sid rid).2
        = [SEvent.userJoined ms sid, SEvent.allUsers sid ms,
           SEvent.roomFullAll (ms ++ [sid])]
      ∧ ∀ c, handleRoomFull c
          = { c with peers := [], localStream := none, roomId := none } := by
  constructor
  · have hnotle : ¬ 3 ≤ ms.length := by omega
    have hjoin : ioJoin st.ioRooms rid sid = aset st.ioRooms rid (ms ++ [sid]) := by
      simp [ioJoin, hio, hs]
    have hmem : ioMembers (ioJoin st.ioRooms rid sid) rid = ms ++ [sid] := by
      simp [hjoin, ioMembers, alookup_aset_self]
    have hfil := filter_ne_append_self ms sid hs
    simp [joinRoom, hms, hlen, hnotle, hmem, hfil]
  · intro c
    rfl

/-- Witness for claim C10: `c` joining a room holding `a` and `b` triggers
the three-recipient `room-full` broadcast, and the handler resets any
client state. -/
theorem third_join_room_full_broadcast_witness :
    (joinRoom (runServer [Op.join "a" "r", Op.join "b" "r"]) "c" "r").2
        = [SEvent.userJoined ["a", "b"] "c", SEvent.allUsers "c" ["a", "b"],
           SEvent.roomFullAll ["a", "b", "c"]]
    ∧ handleRoomFull ⟨[("a", ⟨true⟩)], none, none, some ⟨"me"⟩, some "r"⟩
        = ⟨[], none, none, none, none⟩ := by
  have h := third_join_room_full_broadcast (runServer [Op.join "a" "r", Op.join "b" "r"])
    "c" "r" ["a", "b"] rfl rfl rfl (by decide)
  exact ⟨h.1, h.2 ⟨[("a", ⟨true⟩)], none, none, some ⟨"me"⟩, some "r"⟩⟩

/-- Counterexample for claim C4: a socket that joins the same room twice is
admitted again (the list becomes `["s", "s"]`), yet the `all-users` payload
of that second admitted join is `[]`, not the prior membership `["s"]` —
the filter strips the joiner's id from the prior members too. -/
theorem all_users_rejoin_cex :
    alookup ((joinRoom initServer "s" "r").1).rooms "r" = some ["s"]
    ∧ allUsersPayload (joinRoom (joinRoom initServer "s" "r").1 "s" "r").2 = some []
    ∧ alookup ((joinRoom (joinRoom initServer "s" "r").1 "s" "r").1).rooms "r"
        = some ["s", "s"]
    ∧ (some ([] : List Sid)) ≠ some ["s"] := by
  exact ⟨rfl, rfl, rfl, by decide⟩

/-- Claim C4 amended: on an admitted join the `all-users` payload equals
the prior membership with every occurrence of the joiner's id removed; in
particular, when the joiner was not already a member and the prior
membership is duplicate-free, the payload is exactly the room's ordered
membership immediately before the join, has no duplicates, and excludes
the joiner. -/
theorem all_users_equals_prior_membership (st : ServerState) (sid : Sid)
    (rid : RoomId) (ms : List Sid) (hms : alookup st.rooms rid = some ms)
    (hlen : ms.length < 3) (hn : sid ∉ ms) (hnd : ms.Nodup) :
    allUsersPayload (joinRoom st sid rid).2 = some ms ∧ ms.Nodup ∧ sid ∉ ms := by
  refine ⟨?_, hnd, hn⟩
  have hnotle : ¬ 3 ≤ ms.length := by omega
  have hfil := filter_ne_append_self ms sid hn
  simp [joinRoom, hms, hnotle, allUsersPayload, hfil]

/-- Witness for claim C4 amended: `b` joining the room `["a"]` receives
exactly `["a"]`. -/
theorem all_users_equals_prior_membership_witness :
    allUsersPayload (joinRoom (joinRoom initServer "a" "r").1 "b" "r").2
      = some ["a"] :=
  (all_users_equals_prior_membership (joinRoom initServer "a" "r").1 "b" "r" ["a"]
    rfl (by decide) (by decide) (by decide)).1

/-- Counterexample for claim C2: after `a` joins and then `b` joins the
same room, the earlier joiner `a` holds a non-initiator link toward `b`,
and the later joiner `b` holds the initiator link toward `a` — the
opposite of the claimed direction. -/
theorem join_order_initiator_direction_cex :
    alookup ((runWorld [Op.join "a" "r", Op.join "b" "r"]).clients "a").peers "b"
        = some { isInitiator := false }
    ∧ alookup ((runWorld [Op.join "a" "r", Op.join "b" "r"]).clients "b").peers "a"
        = some { isInitiator := true }
    ∧ ({ isInitiator := false } : PeerLink) ≠ { isInitiator := true } := by
  exact ⟨rfl, rfl, by decide⟩

/-- Claim C2 amended: for two participants in one room, exactly one holds
the Initiator role toward the other, determined solely by join order, with
the later joiner acting as Initiator: the `all-users` roster recipient
(the joiner) creates its peer connections as initiator, while the
`user-joined` notification recipient (the existing member) creates a
non-initiator connection.  Stated for the pair before the room reaches
capacity (at capacity the `room-full` broadcast of C10 wipes the peer
tables again). -/
theorem later_joiner_is_initiator (st : ServerState) (cs : Sid → ClientState)
    (rid : RoomId) (a b : Sid)
    (hms : alookup st.rooms rid = some [a]) (hio : ioMembers st.ioRooms rid = [a])
    (hab : b ≠ a) :
    alookup ((stepWorld ⟨st, cs⟩ (Op.join b rid)).clients b).peers a
        = some { isInitiator := true }
    ∧ alookup ((stepWorld ⟨st, cs⟩ (Op.join b rid)).clients a).peers b
        = some { isInitiator := false } := by
  have hmem : ioMembers (ioJoin st.ioRooms rid b) rid = [a, b] := by
    have hio' : (alookup st.ioRooms rid).getD [] = [a] := hio
    simp [ioJoin, ioMembers, hio', hab, alookup_aset_self]
  have hevents : (joinRoom st b rid).2
      = [SEvent.userJoined [a] b, SEvent.allUsers b [a]] := by
    simp [joinRoom, hms, hmem, hab, Ne.symm hab]
  constructor
  · show alookup ((((joinRoom st b rid).2).foldl deliverEv cs) b).peers a = _
    rw [hevents]
    simp [deliverEv, updClient, handleUserJoined, handleAllUsers,
      createPeerConnection, hab, Ne.symm hab, alookup_aset_self]
  · show alookup ((((joinRoom st b rid).2).foldl deliverEv cs) a).peers b = _
    rw [hevents]
    simp [deliverEv, updClient, handleUserJoined, handleAllUsers,
      createPeerConnection, hab, Ne.symm hab, alookup_aset_self]

/-- Witness for claim C2 amended: with `a` alone in room `r`, a join by
`b` gives `b` the initiator link toward `a`. -/
theorem later_joiner_is_initiator_witness :
    alookup ((stepWorld ⟨(joinRoom initServer "a" "r").1, fun _ => initClient⟩
        (Op.join "b" "r")).clients "b").peers "a" = some { isInitiator := true }
    ∧ alookup ((stepWorld ⟨(joinRoom initServer "a" "r").1, fun _ => initClient⟩
        (Op.join "b" "r")).clients "a").peers "b" = some { isInitiator := false } :=
  later_joiner_is_initiator (joinRoom initServer "a" "r").1 (fun _ => initClient)
    "r" "a" "b" rfl rfl (by decide)

/-! ### Occurrence counting for the single-membership analysis -/

theorem occ_joinRoom_self (st : ServerState) (sid : Sid) (rid : RoomId) (r : RoomId) :
    occ (joinRoom st sid rid).1 sid r
      ≤ occ st sid r + (if r = rid then 1 else 0) := by
  unfold occ
  simp only [joinRoom]
  cases h0 : alookup st.rooms rid with
  | none =>
    simp [h0, alookup_aset_self]
    by_cases hr : r = rid
    · subst hr
      simp [alookup_aset_self, h0]
    · simp [alookup_aset_other _ _ _ _ hr, hr]
  | some clients =>
    simp [h0]
    split
    · by_cases hr : r = rid <;> simp [h0, hr]
    · by_cases hr : r = rid
      · subst hr
        simp [alookup_aset_self, h0, List.count_append]
      · simp [alookup_aset_other _ _ _ _ hr, hr]

theorem occ_joinRoom_other (st : ServerState) (s sid : Sid) (rid : RoomId)
    (r : RoomId) (hne : s ≠ sid) : occ (joinRoom st s rid).1 sid r ≤ occ st sid r := by
  unfold occ
  simp only [joinRoom]
  cases h0 : alookup st.rooms rid with
  | none =>
    simp [h0, alookup_aset_self]
    by_cases hr : r = rid
    · subst hr
      simp [alookup_aset_self, h0, List.count_cons, hne]
    · simp [alookup_aset_other _ _ _ _ hr]
  | some clients =>
    simp [h0]
    split
    · simp [h0]
    · by_cases hr : r = rid
      · subst hr
        simp [alookup_aset_self, h0, List.count_append, List.count_cons, hne]
      · simp [alookup_aset_other _ _ _ _ hr]

theorem occ_disconnect_le (st : ServerState) (s sid : Sid) (r : RoomId) :
    occ (disconnectSock st s).1 sid r ≤ occ st sid r := by
  unfold occ
  simp only [disconnectSock]
  cases hs : alookup st.sockRoom s with
  | none => simp
  | some rid =>
    by_cases he : rid = ""
    · simp [he]
    · simp only [if_neg he]
      cases hm : alookup st.rooms rid with
      | none => simp
      | some clients =>
        simp only []
        split
        · by_cases hr : r = rid
          · subst hr
            simp [alookup_adel_self]
          · simp [alookup_adel_other _ _ _ hr, alookup_aset_other _ _ _ _ hr]
        · by_cases hr : r = rid
          · subst hr
            simp only [alookup_aset_self, Option.getD_some, hm]
            exact List.Sublist.count_le (List.filter_sublist _) _
          · simp [alookup_aset_other _ _ _ _ hr]

theorem occ_step_le (st : ServerState) (op : Op) (sid : Sid) (r : RoomId)
    (h : isJoinBy op sid = false) :
    occ (stepServer st op).1 sid r ≤ occ st sid r := by
  cases op with
  | join s rid =>
    have hs : s ≠ sid := by simpa [isJoinBy] using h
    exact occ_joinRoom_other st s sid rid r hs
  | disconnect s => exact occ_disconnect_le st s sid r

theorem occ_run_le (ops : List Op) (st : ServerState) (sid : Sid)
    (h : joinCount ops sid = 0) (r : RoomId) :
    occ (runServerFrom st ops) sid r ≤ occ st sid r := by
  induction ops generalizing st with
  | nil => exact le_refl _
  | cons op rest ih =>
    rw [joinCount, List.countP_cons] at h
    have h2 : isJoinBy op sid = false := by
      by_cases hb : isJoinBy op sid = true
      · rw [hb] at h
        simp at h
      · simpa using hb
    have h1 : joinCount rest sid = 0 := by
      rw [h2] at h
      simpa [joinCount] using h
    exact le_trans (ih _ h1) (occ_step_le st op sid r h2)

theorem occ_run_single (ops : List Op) (st : ServerState) (sid : Sid)
    (h : joinCount ops sid ≤ 1) (h0 : ∀ r, occ st sid r = 0) :
    ∃ rid, ∀ r, occ (runServerFrom st ops) sid r ≤ (if r = rid then 1 else 0) := by
  induction ops generalizing st with
  | nil => exact ⟨"", fun r => by simp [runServerFrom, h0 r]⟩
  | cons op rest ih =>
    rw [joinCount, List.countP_cons] at h
    by_cases hb : isJoinBy op sid = true
    · cases op with
      | disconnect s => simp [isJoinBy] at hb
      | join s rid =>
        have hSid : s = sid := by simpa [isJoinBy] using hb
        subst hSid
        rw [hb, if_pos rfl] at h
        have h1 : joinCount rest s = 0 := by
          unfold joinCount
          omega
        refine ⟨rid, fun r => ?_⟩
        have hmid : occ (joinRoom st s rid).1 s r ≤ (if r = rid then 1 else 0) := by
          have hj := occ_joinRoom_self st s rid r
          rw [h0 r] at hj
          simpa using hj
        exact le_trans (occ_run_le rest _ s h1 r) hmid
    · have h2 : isJoinBy op sid = false := by simpa using hb
      rw [h2, if_neg Bool.false_ne_true] at h
      have h1 : joinCount rest sid ≤ 1 := by
        unfold joinCount
        omega
      have h0' : ∀ r, occ (stepServer st op).1 sid r = 0 := fun r =>
        Nat.le_zero.mp (le_trans (occ_step_le st op sid r h2) (le_of_eq (h0 r)))
      exact ih _ h1 h0'

/-- Counterexample for claim C8: a connected socket that issues a second
`join-room` for another room without disconnecting ends up in the
membership lists of two rooms at once — the join handler never checks for
an existing membership. -/
theorem double_join_two_rooms_cex :
    (runServer [Op.join "s" "roomA", Op.join "s" "roomB"]).rooms
        = [("roomA", ["s"]), ("roomB", ["s"])]
    ∧ ¬ singleMembership (runServer [Op.join "s" "roomA", Op.join "s" "roomB"]) "s" := by
  exact ⟨rfl, by decide⟩

/-- Claim C8 amended: a participant that issues at most one `join-room`
during its connection appears in the membership list of at most one room,
and at most once within that list; the handler does not guard against
repeated joins, so a second join (to another room or the same room) can
add a second occurrence. -/
theorem single_join_single_membership (ops : List Op) (sid : Sid)
    (h : joinCount ops sid ≤ 1) :
    (∀ r, occ (runServer ops) sid r ≤ 1)
      ∧ ∀ r1 r2, 1 ≤ occ (runServer ops) sid r1 → 1 ≤ occ (runServer ops) sid r2 →
          r1 = r2 := by
  obtain ⟨rid, hb⟩ := occ_run_single ops initServer sid h
    (fun r => by simp [occ, initServer, alookup])
  have hb' : ∀ r, occ (runServer ops) sid r ≤ (if r = rid then 1 else 0) := hb
  constructor
  · intro r
    have hr := hb' r
    by_cases e : r = rid
    · rw [if_pos e] at hr
      exact hr
    · rw [if_neg e] at hr
      omega
  · intro r1 r2 h1 h2
    have b1 := hb' r1
    have b2 := hb' r2
    by_cases e1 : r1 = rid
    · by_cases e2 : r2 = rid
      · rw [e1, e2]
      · rw [if_neg e2] at b2
        omega
    · rw [if_neg e1] at b1
      omega

/-- Witness for claim C8 amended: after a single join, the participant's
id occurs at most once in any room. -/
theorem single_join_single_membership_witness :
    occ (runServer [Op.join "s" "roomA"]) "s" "roomA" ≤ 1
      ∧ occ (runServer [Op.join "s" "roomA"]) "s" "roomB" ≤ 1 := by
  have h := single_join_single_membership [Op.join "s" "roomA"] "s" (by decide)
  exact ⟨h.1 "roomA", h.1 "roomB"⟩

/-! ### Disconnect idempotence on the rooms table -/

theorem disconnect_sockRoom_eq (st : ServerState) (sid : Sid) :
    (disconnectSock st sid).1.sockRoom = st.sockRoom := by
  simp only [disconnectSock]
  cases hs : alookup st.sockRoom sid with
  | none => rfl
  | some rid =>
    by_cases he : rid = ""
    · simp [he]
    · simp only [if_neg he]
      cases hm : alookup st.rooms rid with
      | none => rfl
      | some clients => rfl

theorem disconnect_idem_rooms (st : ServerState) (sid : Sid) :
    (disconnectSock (disconnectSock st sid).1 sid).1.rooms
      = (disconnectSock st sid).1.rooms := by
  set d := (disconnectSock st sid).1 with hd
  have hsock : d.sockRoom = st.sockRoom := by
    rw [hd]
    exact disconnect_sockRoom_eq st sid
  simp only [disconnectSock]
  cases hs2 : alookup d.sockRoom sid with
  | none => rfl
  | some rid =>
    dsimp only
    by_cases he : rid = ""
    · rw [if_pos he]
    · rw [if_neg he]
      cases hm2 : alookup d.rooms rid with
      | none => rfl
      | some l =>
        dsimp only
        have hs : alookup st.sockRoom sid = some rid := by
          rw [← hsock]
          exact hs2
        have hm2' := hm2
        rw [hd] at hm2'
        simp only [disconnectSock, hs, if_neg he] at hm2'
        cases hm : alookup st.rooms rid with
        | none =>
          rw [hm] at hm2'
          simp only [] at hm2'
          rw [hm] at hm2'
          cases hm2'
        | some clients =>
          rw [hm] at hm2'
          simp only [] at hm2'
          by_cases hz : ((clients.filter (fun i => i != sid)).length == 0) = true
          · rw [if_pos hz] at hm2'
            rw [alookup_adel_self] at hm2'
            cases hm2'
          · rw [if_neg hz] at hm2'
            rw [alookup_aset_self] at hm2'
            have hleq : clients.filter (fun i => i != sid) = l := Option.some.inj hm2'
            have hl : l.filter (fun i => i != sid) = l := by
              rw [← hleq]
              exact List.filter_eq_self.mpr (fun a ha => (List.mem_filter.mp ha).2)
            have hne0 : (l.length == 0) = false := by
              rw [← hleq]
              simpa using hz
            rw [hl, hne0, if_neg Bool.false_ne_true]
            exact aset_lookup_eq _ _ _ hm2

/-- Counterexample for claim C9: after `a` and `b` share room `r` and `b`
disconnects, `b` is in no room (the whole rooms table is
`[("r", ["a"])]`), yet replaying `b`'s leave emits `user-left(b)` to `a`
again — it is not notification-free, though the rooms table is unchanged. -/
theorem stale_leave_notifies_cex :
    (runServer [Op.join "a" "r", Op.join "b" "r", Op.disconnect "b"]).rooms
        = [("r", ["a"])]
    ∧ (disconnectSock
          (runServer [Op.join "a" "r", Op.join "b" "r", Op.disconnect "b"]) "b").2
        = [SEvent.userLeft ["a"] "b"]
    ∧ (disconnectSock
          (runServer [Op.join "a" "r", Op.join "b" "r", Op.disconnect "b"]) "b").1.rooms
        = [("r", ["a"])] := by
  exact ⟨rfl, rfl, rfl⟩

/-- Claim C9 amended: a leave (disconnect) for a participant in no room
never changes the rooms table — it removes nothing and deletes no room
(given the invariant that no empty room is ever stored) — and applying
leave twice always has the same effect on the rooms table as applying it
once; however, a repeated leave whose remembered room id still names a
live room re-emits the departure notification, so "notifies no one" holds
only when the remembered room id is unset or stale. -/
theorem leave_absent_noop_on_rooms (sid : Sid) (st : ServerState)
    (h1 : ∀ r ms, alookup st.rooms r = some ms → sid ∉ ms)
    (h2 : ∀ r, alookup st.rooms r ≠ some []) :
    (disconnectSock st sid).1.rooms = st.rooms
    ∧ ∀ st' : ServerState,
        (disconnectSock (disconnectSock st' sid).1 sid).1.rooms
          = (disconnectSock st' sid).1.rooms := by
  refine ⟨?_, fun st' => disconnect_idem_rooms st' sid⟩
  simp only [disconnectSock]
  cases hs : alookup st.sockRoom sid with
  | none => rfl
  | some rid =>
    by_cases he : rid = ""
    · simp [he]
    · simp only [if_neg he]
      cases hm : alookup st.rooms rid with
      | none => rfl
      | some clients =>
        have hfe : clients.filter (fun i => i != sid) = clients :=
          List.filter_eq_self.mpr (fun a ha => by
            simp only [bne_iff_ne, ne_eq]
            exact fun hEq => (h1 rid clients hm) (hEq ▸ ha))
        have hne : clients ≠ [] := fun hnil => (h2 rid) (hnil ▸ hm)
        have hlen0 : (clients.length == 0) = false := by
          cases clients with
          | nil => exact absurd rfl hne
          | cons x l => rfl
        simp only [hfe, hlen0, Bool.false_eq_true, if_false]
        exact aset_lookup_eq st.rooms rid clients hm

/-- Witness for claim C9 amended: leave for `b`, absent from the only
room, leaves the rooms table untouched. -/
theorem leave_absent_noop_on_rooms_witness :
    (disconnectSock
        ⟨[("r", ["a"])], [("a", "r"), ("b", "r")], [("r", ["a"])]⟩ "b").1.rooms
      = [("r", ["a"])] := by
  refine (leave_absent_noop_on_rooms "b"
    ⟨[("r", ["a"])], [("a", "r"), ("b", "r")], [("r", ["a"])]⟩ ?_ ?_).1
  · intro r ms h
    by_cases hr : ("r" : String) = r
    · simp only [alookup, if_pos hr] at h
      cases h
      decide
    · simp only [alookup, if_neg hr] at h
      cases h
  · intro r
    by_cases hr : ("r" : String) = r
    · simp [alookup, hr]
    · simp [alookup, hr]

end VideoChat
